import Mathlib

/-!
# Verification of the external-mods-manager update engine

Shallow embedding of `update.py` (tunaflsh/external-mods-manager): the tiered
version-resolution algorithm (`ModExtractor.find_matching_version`), the
releases-API metadata extraction (`GithubReleasesExtractor.extract_jars`), the
download/replace engine (`ModExtractor.download_jar`), and the per-mod driver
loop of `main`.

Modelling conventions:
* Python strings are `String` / `List Char`; the regular expressions of the
  source are embedded as executable character-list scanners that replicate the
  Python `re` backtracking semantics on ASCII inputs (Python `\d`, `\w`,
  `.isdigit` are modelled at ASCII level; `$` also matches before a final
  newline, as in Python).  The source interpolates the target version string
  *raw* into the tier-1 pattern, so a `.` inside the target behaves as the
  regex wildcard; targets are assumed to contain no other regex
  metacharacters, which holds for every version string the program handles.
* Python `dict` is an insertion-ordered association list (`VMap`) with
  overwriting insert.
* Exceptions that the Python code can raise (`AttributeError` from a failed
  `GITHUB_REGEX.match(...).group`, `TypeError` from subscripting a failed
  `VERSION_REGEX.match`, `ValueError` from unpacking `split(".")`, `KeyError`
  from `dict[...]`) are modelled with `Except PyErr`.
* The network and the filesystem are an explicit `World` state: response
  functions per endpoint and the set of resident files.
-/

/-- Exceptions the embedded Python code can raise. -/
inductive PyErr where
  | attributeError
  | typeError
  | valueError
  | keyError
deriving DecidableEq

instance {ε α : Type} [DecidableEq ε] [DecidableEq α] : DecidableEq (Except ε α) := fun x y =>
  match x, y with
  | .ok a, .ok b =>
    if h : a = b then isTrue (by rw [h]) else isFalse (by intro hc; cases hc; exact h rfl)
  | .error a, .error b =>
    if h : a = b then isTrue (by rw [h]) else isFalse (by intro hc; cases hc; exact h rfl)
  | .ok _, .error _ => isFalse (by intro hc; cases hc)
  | .error _, .ok _ => isFalse (by intro hc; cases hc)

/-- A Python dict from published game-version string to download URL,
as an insertion-ordered association list. -/
abbrev VMap := List (String × String)

/-- Python `d[k] = v` on a dict: overwrite in place if the key exists
(keeping its position, as Python dicts do), else append. -/
def dictInsert (m : VMap) (k v : String) : VMap :=
  if m.any (fun p => p.1 = k) then
    m.map (fun p => if p.1 = k then (k, v) else p)
  else m ++ [(k, v)]

/-- Python `d[k]` as an option (the `.error .keyError` case is raised by the
caller when this is `none`). -/
def lookupDict : VMap → String → Option String
  | [], _ => none
  | p :: rest, key => if key = p.1 then some p.2 else lookupDict rest key

/-- One pattern character of the tier-1 regex against one subject character.
The target version is interpolated raw into the pattern, so `'.'` is the
regex wildcard (any character except newline); all other characters are
literals. -/
def patCharMatch (tc sc : Char) : Bool :=
  if tc = '.' then !(sc = '\n') else tc = sc

/-- The `(^|\D)` boundary: start of string, or the previous character is a
non-digit. -/
def boundaryOk : Option Char → Bool
  | none => true
  | some c => !c.isDigit

/-- Match the interpolated target pattern against a prefix of the subject,
returning the remaining subject on success. -/
def matchChars : List Char → List Char → Option (List Char)
  | [], s => some s
  | _ :: _, [] => none
  | p :: ps, c :: cs => if patCharMatch p c then matchChars ps cs else none

/-- The `($|\D)$` trailing context of the tier-1 regex applied to the rest of
the subject after the target matched: the rest is empty, a single non-digit
character, or (because Python `$` also matches before a final newline) a
non-digit character followed by a final newline. -/
def tailOk : List Char → Bool
  | [] => true
  | [c] => !c.isDigit
  | [c, d] => !c.isDigit && (d = '\n')
  | _ => false

/-- Attempt of the tier-1 regex at the current position. -/
def tier1At (T s : List Char) : Bool :=
  match matchChars T s with
  | some rest => tailOk rest
  | none => false

/-- `re.search` scan for the tier-1 pattern: try every start position,
tracking the previous character for the `(^|\D)` boundary. -/
def tier1SearchAux (T : List Char) : Option Char → List Char → Bool
  | prev, [] => boundaryOk prev && tier1At T []
  | prev, c :: cs => (boundaryOk prev && tier1At T (c :: cs)) || tier1SearchAux T (some c) cs

/-- `re.search(rf"(^|\D){target}($|\D)$", key)` of the source, line 115:
is `key` an exact-tier (tier-1) candidate for `target`? -/
def tier1Candidate (target key : String) : Bool :=
  tier1SearchAux target.data none key.data

/-- Literal prefix match (used for the tier-2 pattern, whose dots are escaped
in the source: `rf"(^|\D){a}\.{b}\."`). -/
def litStarts : List Char → List Char → Bool
  | [], _ => true
  | _ :: _, [] => false
  | p :: ps, c :: cs => (p = c) && litStarts ps cs

/-- `re.search` scan for the tier-2 pattern `(^|\D)a\.b\.`: boundary before,
then the literal characters of `a`, a dot, the characters of `b`, a dot. -/
def tier2SearchAux (P : List Char) : Option Char → List Char → Bool
  | prev, [] => boundaryOk prev && litStarts P []
  | prev, c :: cs => (boundaryOk prev && litStarts P (c :: cs)) || tier2SearchAux P (some c) cs

/-- Tier-2 (patch-wildcard) candidacy of `key` for a target split as
`a.b.c` (source, line 127). -/
def tier2Candidate (a b : List Char) (key : String) : Bool :=
  tier2SearchAux (a ++ '.' :: b ++ ['.']) none key.data

/-- Python `str.split(".")` on a character list. -/
def pySplitDot : List Char → List (List Char)
  | [] => [[]]
  | '.' :: cs => [] :: pySplitDot cs
  | c :: cs =>
    match pySplitDot cs with
    | seg :: rest => (c :: seg) :: rest
    | [] => [[c]]

/-- `ModExtractor.find_matching_version` (source, lines 110-142) over the
keys of `mod_list`.  Returns `.ok (some key)` on a unique match, `.ok none`
when the Python code returns `None` (ambiguity or no match), and
`.error .valueError` when `a, b, c = self.version.split(".")` fails to
unpack. -/
def find_matching_version (target : String) (mod_list : VMap) : Except PyErr (Option String) :=
  let ks := mod_list.map Prod.fst
  let versions := ks.filter (fun v => tier1Candidate target v)
  if 1 < versions.length then .ok none
  else
    match versions with
    | v :: _ => .ok (some v)
    | [] =>
      match pySplitDot target.data with
      | [a, b, _c] =>
        let versions2 := ks.filter (fun v => tier2Candidate a b v)
        if 1 < versions2.length then .ok none
        else
          match versions2 with
          | v :: _ => .ok (some v)
          | [] =>
            let ab := String.mk (a ++ '.' :: b)
            if ab ∈ ks then .ok (some ab) else .ok none
      | _ => .error .valueError

/-! ## Releases-API extraction (`GithubReleasesExtractor`) -/

/-- Maximal run of ASCII digits (regex `\d+`/`\d{2}` pieces; a `\d+`
in `VERSION_REGEX` is always followed by a non-digit pattern character,
so only the maximal run can continue the match). -/
def digitRun : List Char → List Char × List Char
  | [] => ([], [])
  | c :: cs =>
    if c.isDigit then
      match digitRun cs with
      | (r, rest) => (c :: r, rest)
    else ([], c :: cs)

/-- Maximal run of `\w` characters (ASCII model: alphanumeric or underscore). -/
def wordRun : List Char → List Char × List Char
  | [] => ([], [])
  | c :: cs =>
    if c.isAlphanum || c = '_' then
      match wordRun cs with
      | (r, rest) => (c :: r, rest)
    else ([], c :: cs)

/-- The optional `(?:-pre\w+|-rc\w+)` suffix of the `game_version` group:
returns the consumed characters and the remainder when the alternation
matches at the current position. -/
def preRcSuffix : List Char → Option (List Char × List Char)
  | '-' :: 'p' :: 'r' :: 'e' :: rest =>
    match wordRun rest with
    | ([], _) => none
    | (wr, rest2) => some ('-' :: 'p' :: 'r' :: 'e' :: wr, rest2)
  | '-' :: 'r' :: 'c' :: rest =>
    match wordRun rest with
    | ([], _) => none
    | (wr, rest2) => some ('-' :: 'r' :: 'c' :: wr, rest2)
  | _ => none

/-- Expansion of the optional suffix group in engine order: the variant that
takes the suffix is tried before the one that skips it. -/
def withSuffixOpts (g r : List Char) : List (List Char × List Char) :=
  match preRcSuffix r with
  | some (suf, r2) => [(g ++ suf, r2), (g, r)]
  | none => [(g, r)]

/-- Candidates (in backtracking order) for the first `game_version`
alternative `\d+\.\d+(?:\.\d+)?(?:-pre\w+|-rc\w+)?`. -/
def gvAlt1 (s : List Char) : List (List Char × List Char) :=
  match digitRun s with
  | ([], _) => []
  | (d1, r1) =>
    match r1 with
    | '.' :: r1' =>
      (match digitRun r1' with
       | ([], _) => []
       | (d2, r2) =>
         let base := d1 ++ '.' :: d2
         (match r2 with
          | '.' :: r3 =>
            (match digitRun r3 with
             | ([], _) => []
             | (d3, r4) => withSuffixOpts (base ++ '.' :: d3) r4)
          | _ => []) ++ withSuffixOpts base r2)
    | _ => []

/-- Candidate for the second `game_version` alternative `\d{2}w\d{2}\w+`
(a snapshot code). -/
def gvAlt2 : List Char → List (List Char × List Char)
  | a :: b :: 'w' :: c :: d :: rest =>
    if a.isDigit && b.isDigit && c.isDigit && d.isDigit then
      match wordRun rest with
      | ([], _) => []
      | (wr, rest2) => [(a :: b :: 'w' :: c :: d :: wr, rest2)]
    else []
  | _ => []

/-- Is the remainder exactly `.jar` (the `\.jar$` tail; Python `$` also
matches before one final newline)? -/
def jarEnd : List Char → Bool
  | ['.', 'j', 'a', 'r'] => true
  | ['.', 'j', 'a', 'r', '\n'] => true
  | _ => false

/-- After the second `-` separator: `(?P<mod_version>.+?)\.jar$` — at least
one non-newline character, then the literal `.jar` at the end. -/
def jarSuffixOk : List Char → Bool
  | [] => false
  | c :: cs => if c = '\n' then false else jarEnd cs || jarSuffixOk cs

/-- Try the `game_version` candidates in engine order against the
`-<mod_version>.jar` continuation; first success wins. -/
def firstGoodGv : List (List Char × List Char) → Option (List Char)
  | [] => none
  | (g, r) :: rest =>
    match r with
    | '-' :: rest2 => if jarSuffixOk rest2 then some g else firstGoodGv rest
    | _ => firstGoodGv rest

/-- Attempt the part of `VERSION_REGEX` after `mod_name` and its `-`
separator. -/
def vrAfterDash (rest : List Char) : Option (List Char) :=
  firstGoodGv (gvAlt1 rest ++ gvAlt2 rest)

/-- Scan for the `-` separator ending the lazy `(?P<mod_name>.+?)` group,
shortest `mod_name` first; a failed continuation turns the `-` into a
`mod_name` character. -/
def vrScanAux : List Char → Option (List Char)
  | [] => none
  | c :: cs =>
    if c = '\n' then none
    else if c = '-' then
      match vrAfterDash cs with
      | some gv => some gv
      | none => vrScanAux cs
    else vrScanAux cs

/-- `GithubReleasesExtractor.VERSION_REGEX.match(name)["game_version"]`
(source, lines 266-268 and 296): the extracted `game_version` group, or
`none` when the asset filename does not match the pattern
`^(?P<mod_name>.+?)-(?P<game_version>...)-(?P<mod_version>.+?)\.jar$`. -/
def versionRegexMatch (name : String) : Option String :=
  match name.data with
  | [] => none
  | c :: rest => if c = '\n' then none else (vrScanAux rest).map String.mk

/-- Literal prefix stripper (for the scheme alternatives of `GITHUB_REGEX`). -/
def stripLit : List Char → List Char → Option (List Char)
  | [], s => some s
  | _ :: _, [] => none
  | p :: ps, c :: cs => if p = c then stripLit ps cs else none

/-- The `(\.git)?$` tail after the lazy `repo` group: the remainder must be
empty or exactly `.git` (each optionally before a final newline, the Python
`$` semantics). -/
def repoRemOk : List Char → Bool
  | [] => true
  | ['\n'] => true
  | ['.', 'g', 'i', 't'] => true
  | ['.', 'g', 'i', 't', '\n'] => true
  | _ => false

/-- Lazy `(?P<repo>.+?)` scan: shortest non-empty prefix whose remainder
satisfies the `(\.git)?$` tail. -/
def repoScan : List Char → List Char → Option (List Char)
  | acc, [] => if acc ≠ [] && repoRemOk [] then some acc.reverse else none
  | acc, c :: cs =>
    if acc ≠ [] && repoRemOk (c :: cs) then some acc.reverse
    else if c = '\n' then none
    else repoScan (c :: acc) cs

/-- Lazy `(?P<owner>.+?)/` scan with backtracking: at each `/` past a
non-empty owner, try the repo part; on failure the `/` joins the owner. -/
def ownerScan : List Char → List Char → Option (String × String)
  | _, [] => none
  | acc, c :: cs =>
    if c = '\n' then none
    else if c = '/' then
      if acc = [] then ownerScan (c :: acc) cs
      else
        match repoScan [] cs with
        | some repo => some (String.mk acc.reverse, String.mk repo)
        | none => ownerScan (c :: acc) cs
    else ownerScan (c :: acc) cs

/-- The host part of `GITHUB_REGEX`: the literal characters of
`github.com/` — with the unescaped `.` of the source pattern acting as the
regex wildcard — followed by the owner/repo groups. -/
def matchHostPath : List Char → Option (String × String)
  | 'g' :: 'i' :: 't' :: 'h' :: 'u' :: 'b' :: d :: 'c' :: 'o' :: 'm' :: '/' :: rest =>
    if d = '\n' then none else ownerScan [] rest
  | _ => none

/-- `ModExtractor.GITHUB_REGEX.match(source)` (source, lines 93-95) returning
the `owner` and `repo` groups: `^(https?://)?github.com/(?P<owner>.+?)/(?P<repo>.+?)(\.git)?$`. -/
def githubMatch (source : String) : Option (String × String) :=
  match stripLit "https://".data source.data with
  | some r => matchHostPath r
  | none =>
    match stripLit "http://".data source.data with
    | some r => matchHostPath r
    | none => matchHostPath source.data

/-- One release asset of the GitHub releases listing: its `name` and its
`browser_download_url`. -/
structure Asset where
  name : String
  url : String
deriving DecidableEq

/-- The releases URL built at source line 275. -/
def releasesUrl (owner repo : String) : String :=
  "https://api.github.com/repos/" ++ owner ++ "/" ++ repo ++ "/releases"

/-- The flattening `for release in releases for asset in release["assets"]`. -/
def allAssets : List (List Asset) → List Asset
  | [] => []
  | r :: rs => r ++ allAssets rs

/-- The dict comprehension of source lines 295-301, asset by asset; a
filename that fails `VERSION_REGEX` raises `TypeError` (subscripting
`None`). -/
def buildModListAux (acc : VMap) : List Asset → Except PyErr VMap
  | [] => .ok acc
  | a :: rest =>
    match versionRegexMatch a.name with
    | none => .error .typeError
    | some gv => buildModListAux (dictInsert acc gv a.url) rest

/-! ## World state, fetch engine, and the per-mod driver loop -/

/-- Extractor state (`ModExtractor.__init__`): `name`, the target `version`
(overwritten with the resolved version at source line 159), the `source`
URI, and the `file` attribute (the previously downloaded filename, `None`
for a mod with no resident file). -/
structure Extr where
  name : String
  version : String
  source : String
  file : Option String
deriving DecidableEq

/-- The explicit external state: deterministic responses of the network per
endpoint (statuses, the parsed releases listing, the `Content-Disposition`
header of the `HEAD` request) and the set of files on disk. -/
structure World where
  releasesStatus : String → Nat
  releasesBody : String → List (List Asset)
  headStatus : String → Nat
  headDisposition : String → Option String
  getStatus : String → Nat
  files : List String

/-- `GithubReleasesExtractor.extract_jars` (source, lines 273-306):
`.error .attributeError` when `GITHUB_REGEX` does not match the source URI,
`.ok none` for a non-200 listing response or an empty listing (the Python
code returns `None`), otherwise the dict built from every asset of every
release. -/
def extract_jars_github (e : Extr) (w : World) : Except PyErr (Option VMap) :=
  match githubMatch e.source with
  | none => .error .attributeError
  | some (owner, repo) =>
    let url := releasesUrl owner repo
    if w.releasesStatus url ≠ 200 then .ok none
    else
      let releases := w.releasesBody url
      if releases.isEmpty then .ok none
      else
        match buildModListAux [] (allAssets releases) with
        | .error err => .error err
        | .ok m => .ok (some m)

/-- Is the literal `filename=` a substring (Python `"filename=" in cd`)? -/
def hasFilenameEq : List Char → Bool
  | 'f' :: 'i' :: 'l' :: 'e' :: 'n' :: 'a' :: 'm' :: 'e' :: '=' :: _ => true
  | _ :: cs => hasFilenameEq cs
  | [] => false

/-- Python `cd.split("filename=")`: split on every occurrence of the literal
separator, via an accumulator for the current segment. -/
def splitOnFnAux : List Char → List Char → List (List Char)
  | cur, 'f' :: 'i' :: 'l' :: 'e' :: 'n' :: 'a' :: 'm' :: 'e' :: '=' :: cs =>
    cur.reverse :: splitOnFnAux [] cs
  | cur, c :: cs => splitOnFnAux (c :: cur) cs
  | cur, [] => [cur.reverse]

/-- Python `str.strip(CHR(34))`: drop the quote character from both ends. -/
def stripQuotesChars (l : List Char) : List Char :=
  ((l.dropWhile (fun c => c = '"')).reverse.dropWhile (fun c => c = '"')).reverse

/-- Value of one hexadecimal digit, both cases (for `urllib.parse.unquote`). -/
def hexDigitVal (c : Char) : Option Nat :=
  if '0' ≤ c ∧ c ≤ '9' then some (c.toNat - '0'.toNat)
  else if 'a' ≤ c ∧ c ≤ 'f' then some (c.toNat - 'a'.toNat + 10)
  else if 'A' ≤ c ∧ c ≤ 'F' then some (c.toNat - 'A'.toNat + 10)
  else none

/-- `urllib.parse.unquote` at ASCII level: decode `%XX` escapes, leaving
invalid sequences untouched. -/
def unquoteChars : List Char → List Char
  | [] => []
  | '%' :: a :: b :: rest =>
    match hexDigitVal a, hexDigitVal b with
    | some x, some y => Char.ofNat (16 * x + y) :: unquoteChars rest
    | _, _ => '%' :: unquoteChars (a :: b :: rest)
  | c :: rest => c :: unquoteChars rest

/-- Source lines 177-178: `content_disposition.split("filename=")[1].strip(CHR(34))`
then `unquote`.  The index-1 access is guarded by the `filename=` containment
check, so the `[]` default is unreachable at call sites. -/
def dispositionFilename (cd : String) : String :=
  String.mk (unquoteChars (stripQuotesChars (((splitOnFnAux [] cd.data).drop 1).headD [])))

/-- `open(file, "wb")` creating the file (set semantics on filenames). -/
def addFile (fs : List String) (f : String) : List String :=
  if f ∈ fs then fs else fs ++ [f]

/-- `os.remove(f)` (set semantics on filenames). -/
def removeFile (fs : List String) (f : String) : List String :=
  fs.filter (fun x => x ≠ f)

/-- Outcome of one `download_jar` run: the returned boolean, the extractor
state after the call, the world after the call, and how many `GET` (body)
requests were issued. -/
structure FetchResult where
  success : Bool
  extr : Extr
  world : World
  gets : Nat

/-- The fetch part of `ModExtractor.download_jar` (source, lines 162-205):
`HEAD` for the filename, the already-on-disk check, the streamed `GET`, the
write, and the replace of the previous file.  Python truthiness of
`old_file` makes an empty-string previous file behave like `None`.  The
`os.path.exists(old_file)` check runs after the new file is written. -/
def fetchJar (e : Extr) (jar_url : String) (w : World) : FetchResult :=
  if w.headStatus jar_url ≠ 200 then ⟨false, e, w, 0⟩
  else
    let cd := (w.headDisposition jar_url).getD ""
    if ¬ (hasFilenameEq cd.data = true) then ⟨false, e, w, 0⟩
    else
      let file := dispositionFilename cd
      let old_file := e.file
      let e1 : Extr := { e with file := some file }
      if file ∈ w.files then ⟨true, e1, w, 0⟩
      else if w.getStatus jar_url ≠ 200 then ⟨false, e1, w, 1⟩
      else
        let fs1 := addFile w.files file
        match old_file with
        | some old =>
          if old ≠ "" ∧ old ≠ file ∧ old ∈ fs1 then
            ⟨true, e1, { w with files := removeFile fs1 old }, 1⟩
          else ⟨true, e1, { w with files := fs1 }, 1⟩
        | none => ⟨true, e1, { w with files := fs1 }, 1⟩

/-- `ModExtractor.download_jar` (source, lines 144-205) for the releases
extractor: extract the version map, resolve the version (storing it in the
extractor state, line 159), look up the URL, then run the fetch part. -/
def download_jar (e : Extr) (w : World) : Except PyErr FetchResult :=
  match extract_jars_github e w with
  | .error err => .error err
  | .ok none => .ok ⟨false, e, w, 0⟩
  | .ok (some jars) =>
    if jars.isEmpty then .ok ⟨false, e, w, 0⟩
    else
      match find_matching_version e.version jars with
      | .error err => .error err
      | .ok none => .ok ⟨false, e, w, 0⟩
      | .ok (some v) =>
        let e1 : Extr := { e with version := v }
        match lookupDict jars v with
        | none => .error .keyError
        | some jar_url => .ok (fetchJar e1 jar_url w)

/-- One output entry of the manifest rebuilt by `main` (lines 67-75):
`name` and `source` always, `version` and `file` only when `download_jar`
returned `True`. -/
structure Entry where
  name : String
  source : String
  version : Option String
  file : Option String
deriving DecidableEq

/-- The manifest entry `main` records for one mod. -/
def entryOf (e : Extr) (success : Bool) : Entry :=
  { name := e.name, source := e.source,
    version := if success then some e.version else none,
    file := if success then e.file else none }

/-- The per-mod loop of `main` (source, lines 67-76), threading the world
through the mods in manifest order; an uncaught Python exception aborts the
whole loop (and the manifest is then never written). -/
def processLoop : List Extr → World → Except PyErr (List Entry × World)
  | [], w => .ok ([], w)
  | e :: rest, w =>
    match download_jar e w with
    | .error err => .error err
    | .ok r =>
      match processLoop rest r.world with
      | .error err => .error err
      | .ok (entries, w2) => .ok (entryOf r.extr r.success :: entries, w2)

/-- The download location of the last asset, in listing order, whose
extracted game-version group equals `key` (the notion quantified over by the
last-entry-wins property of the dict comprehension). -/
def lastUrl : List Asset → String → Option String
  | [], _ => none
  | a :: rest, key =>
    match lastUrl rest key with
    | some u => some u
    | none =>
      match versionRegexMatch a.name with
      | some gv => if gv = key then some a.url else none
      | none => none

/-! Concrete extractors and worlds used by counterexamples and witnesses. -/

/-- A world where every request fails with 404 and no file is on disk. -/
def c6w : World :=
  { releasesStatus := fun _ => 404, releasesBody := fun _ => [],
    headStatus := fun _ => 404, headDisposition := fun _ => none,
    getStatus := fun _ => 404, files := [] }

/-- A mod whose source URI does not parse as a repository. -/
def c6bad : Extr :=
  { name := "badmod", version := "1.20.1", source := "not-a-github-url", file := none }

/-- A mod with a well-formed source (its listing request will return 404,
a recovered failure). -/
def c6good : Extr :=
  { name := "goodmod", version := "1.20.1", source := "github.com/o/r", file := none }

/-- A second well-formed mod. -/
def c6good2 : Extr :=
  { name := "goodmod2", version := "1.20.1", source := "github.com/o2/r2", file := none }

/-- A mod with a resident file, about to be updated. -/
def c7e : Extr :=
  { name := "mymod", version := "1.20.1", source := "github.com/o/mymod",
    file := some "mymod-1.20.1-1.0.jar" }

/-- A world where extraction and the metadata request succeed (resolving
`1.20.1` to the patch-wildcard key `1.20.3`) but the transfer request
fails with 500. -/
def c7w : World :=
  { releasesStatus := fun _ => 200,
    releasesBody := fun _ =>
      [[{ name := "mymod-1.20.3-2.0.jar", url := "https://dl.example/mymod.jar" }]],
    headStatus := fun _ => 200,
    headDisposition := fun _ => some "attachment; filename=mymod-1.20.3-2.0.jar",
    getStatus := fun _ => 500,
    files := ["mymod-1.20.1-1.0.jar"] }

/-- The extractor state `download_jar` leaves behind on the failed transfer
of `c7e` in `c7w`: version and file reference already advanced. -/
def c7e2 : Extr :=
  { name := "mymod", version := "1.20.3", source := "github.com/o/mymod",
    file := some "mymod-1.20.3-2.0.jar" }

/-- A mod holding `mod-1.0.jar`, fetching an artifact named `mod-1.1.jar`. -/
def c8e : Extr :=
  { name := "m", version := "1.20.1", source := "github.com/o/m", file := some "mod-1.0.jar" }

/-- A world where the fetch of `mod-1.1.jar` fully succeeds and
`mod-1.0.jar` is on disk. -/
def c8w : World :=
  { releasesStatus := fun _ => 404, releasesBody := fun _ => [],
    headStatus := fun _ => 200,
    headDisposition := fun _ => some "attachment; filename=mod-1.1.jar",
    getStatus := fun _ => 200,
    files := ["mod-1.0.jar"] }

/-- A mod with no prior file. -/
def c9e : Extr :=
  { name := "m", version := "1.20.1", source := "github.com/o/m", file := none }

/-- A world where the fetch of `mod-1.1.jar` fully succeeds on an empty
disk. -/
def c9w : World :=
  { releasesStatus := fun _ => 404, releasesBody := fun _ => [],
    headStatus := fun _ => 200,
    headDisposition := fun _ => some "attachment; filename=mod-1.1.jar",
    getStatus := fun _ => 200,
    files := [] }

/-- A mod for the duplicate-key extraction scenario. -/
def c10e : Extr :=
  { name := "m", version := "1.20.1", source := "github.com/o/r", file := none }

/-- A world whose releases listing carries two assets with the same
game-version `1.20.1` across two releases. -/
def c10w : World :=
  { releasesStatus := fun _ => 200,
    releasesBody := fun _ =>
      [[{ name := "foo-1.20.1-1.0.jar", url := "u1" }],
       [{ name := "bar-1.20.1-2.0.jar", url := "u2" }]],
    headStatus := fun _ => 404, headDisposition := fun _ => none,
    getStatus := fun _ => 404, files := [] }


/-! ## Spec-side and declarative definitions for the exact-tier claim -/

/-- Modelled from the spec: exact-tier candidacy as the spec sentence reads
— the target string occurs in the key verbatim, beginning at start-of-string
or after a non-digit character and ending at end-of-string or before a
non-digit character.  (Refinement comparison against `tier1Candidate`,
which embeds the source regex.)  Attempt at one position. -/
def specExactAt (T s : List Char) : Bool :=
  match stripLit T s with
  | some [] => true
  | some (c :: _) => !c.isDigit
  | none => false

/-- Modelled from the spec: scan of `specExactAt` over all start positions,
tracking the previous character for the begin-boundary. -/
def specExactAux (T : List Char) : Option Char → List Char → Bool
  | prev, [] => boundaryOk prev && specExactAt T []
  | prev, c :: cs => (boundaryOk prev && specExactAt T (c :: cs)) || specExactAux T (some c) cs

/-- Modelled from the spec: is `key` an exact-tier candidate for `target`
according to the spec's description? -/
def specExactCandidate (target key : String) : Bool :=
  specExactAux target.data none key.data

/-- Declarative trailing condition actually imposed by the source regex
`($|\D)$`: after the matched target the key ends, or exactly one non-digit
character remains (possibly followed by one final newline, the Python `$`
semantics). -/
def tier1TailSpec (post : List Char) : Prop :=
  post = [] ∨ (∃ c, post = [c] ∧ c.isDigit = false) ∨
    (∃ c, post = [c, '\n'] ∧ c.isDigit = false)

/-- Begin-boundary condition relative to the character preceding the scan
position. -/
def tier1PreSpec (prev : Option Char) (pre : List Char) : Prop :=
  (pre = [] ∧ boundaryOk prev = true) ∨ (∃ pre' d, pre = pre' ++ [d] ∧ d.isDigit = false)

/-- Declarative characterization of tier-1 candidacy as the source regex
actually behaves: the key decomposes as `pre ++ mid ++ post` where `mid`
matches the interpolated target character-wise (`'.'` in the target matches
any non-newline character), `pre` is empty or ends in a non-digit, and
`post` satisfies the end-anchored trailing condition. -/
def tier1RegexSpec (T s : List Char) : Prop :=
  ∃ pre mid post, s = pre ++ mid ++ post ∧
    mid.length = T.length ∧
    (∀ p ∈ T.zip mid, patCharMatch p.1 p.2 = true) ∧
    (pre = [] ∨ ∃ pre' d, pre = pre' ++ [d] ∧ d.isDigit = false) ∧
    tier1TailSpec post

/-! ## Regression checks of the regex embeddings against `re` behavior -/

theorem resolution_regression_checks :
    tier1Candidate "1.20.1" "1.20.1" = true ∧
    tier1Candidate "1.20.1" "1.20.10" = false ∧
    tier1Candidate "1.20.1" "1.20.1x" = true ∧
    find_matching_version "1.20.1" [("1.20.1", "a"), ("1.20.2", "b")] = .ok (some "1.20.1") ∧
    find_matching_version "1.20.1" [("1.20.3", "c")] = .ok (some "1.20.3") ∧
    find_matching_version "1.20.1" [("1.19", "a"), ("1.20", "b")] = .ok (some "1.20") := by
  decide

theorem versionRegex_regression_checks :
    versionRegexMatch "itemscroller-1.20.1-7.2.1.jar" = some "1.20.1" ∧
    versionRegexMatch "mod-24w10a-1.0.jar" = some "24w10a" ∧
    versionRegexMatch "mod-1.20-pre1-2.0.jar" = some "1.20-pre1" ∧
    versionRegexMatch "mod-1.20.1.jar" = none ∧
    versionRegexMatch "a-1.20-b-1.20.1-c.jar" = some "1.20" ∧
    versionRegexMatch "mod-1.20-pre1.jar" = some "1.20" ∧
    versionRegexMatch "x-123w45a-1.jar" = none := by
  decide

theorem githubMatch_regression_checks :
    githubMatch "github.com/o/r" = some ("o", "r") ∧
    githubMatch "https://github.com/Nyan-Work/itemscroller.git" = some ("Nyan-Work", "itemscroller") ∧
    githubMatch "not-a-github-url" = none ∧
    githubMatch "github.com/a/b/c" = some ("a", "b/c") ∧
    githubMatch "http://github.com/o/r.gitx" = some ("o", "r.gitx") ∧
    dispositionFilename "attachment; filename=\"foo%20bar.jar\"" = "foo bar.jar" := by
  decide

/-! ## Helper lemmas -/

theorem patCharMatch_self (c : Char) : patCharMatch c c = true := by
  by_cases h : c = '.'
  · subst h; decide
  · simp [patCharMatch, h]

theorem matchChars_self (T : List Char) : matchChars T T = some [] := by
  induction T with
  | nil => rfl
  | cons c cs ih => simp [matchChars, patCharMatch_self, ih]

theorem tier1SearchAux_self (T : List Char) : tier1SearchAux T none T = true := by
  cases T with
  | nil => rfl
  | cons c cs => simp [tier1SearchAux, boundaryOk, tier1At, matchChars_self, tailOk]

theorem tier1Candidate_self (t : String) : tier1Candidate t t = true :=
  tier1SearchAux_self t.data

theorem filter_eq_singleton_of_unique {α : Type} (p : α → Bool) (l : List α) (a : α)
    (hnd : l.Nodup) (ha : a ∈ l) (hp : p a = true)
    (honly : ∀ x ∈ l, p x = true → x = a) :
    l.filter p = [a] := by
  induction l with
  | nil => cases ha
  | cons b t ih =>
    rcases List.nodup_cons.mp hnd with ⟨hbt, hndt⟩
    rcases List.mem_cons.mp ha with hab | hat
    · subst hab
      have ht : t.filter p = [] := by
        rw [List.filter_eq_nil_iff]
        intro x hx hpx
        exact hbt ((honly x (List.mem_cons_of_mem _ hx) hpx) ▸ hx)
      simp [List.filter_cons, hp, ht]
    · have hpb : p b = false := by
        by_contra hc
        have : p b = true := by revert hc; cases p b <;> simp
        exact hbt ((honly b (List.mem_cons_self _ _) this) ▸ hat)
      have := ih hndt hat (fun x hx hpx => honly x (List.mem_cons_of_mem _ hx) hpx)
      simp [List.filter_cons, hpb, this]

/-! ## C1: resolution never returns a key absent from its input map -/

/-- C1: for every target string and every version map, a successfully
returned key of `find_matching_version` is a key of the input map; the only
other outcomes are `.ok none` (absence) and a raised exception (failure). -/
theorem C1_resolve_mem (target : String) (m : VMap) (k : String)
    (h : find_matching_version target m = .ok (some k)) :
    k ∈ m.map Prod.fst := by
  simp only [find_matching_version] at h
  split at h
  · exact absurd h (by simp)
  · split at h
    · rename_i v tail heq
      have hv : v = k := by simpa using h
      exact hv ▸ List.mem_of_mem_filter (heq.symm ▸ List.mem_cons_self v tail)
    · split at h
      · split at h
        · exact absurd h (by simp)
        · split at h
          · rename_i v tail heq
            have hv : v = k := by simpa using h
            exact hv ▸ List.mem_of_mem_filter (heq.symm ▸ List.mem_cons_self v tail)
          · split at h
            · rename_i hmem
              exact (Option.some.inj (Except.ok.inj h)) ▸ hmem
            · exact absurd h (by simp)
      · exact absurd h (by simp)

theorem C1_resolve_mem_witness :
    "1.20.1" ∈ ([("1.20.1", "u")] : VMap).map Prod.fst :=
  C1_resolve_mem "1.20.1" [("1.20.1", "u")] "1.20.1" (by decide)

/-! ## C2: ambiguity at a tier is a failure, never a silent pick -/

/-- C2: two or more candidates at the exact tier, or (when the exact tier is
empty and the target splits in three) at the patch-wildcard tier, make
resolution return `None`; in particular target `1.20.1` against
`{"1.20.1-pre1": a, "1.20.1-pre2": b}` fails rather than picking `a`. -/
theorem C2_ambiguity_fails :
    (∀ (target : String) (m : VMap),
       2 ≤ ((m.map Prod.fst).filter (fun v => tier1Candidate target v)).length →
       find_matching_version target m = .ok none)
  ∧ (∀ (target : String) (m : VMap) (a b c : List Char),
       (m.map Prod.fst).filter (fun v => tier1Candidate target v) = [] →
       pySplitDot target.data = [a, b, c] →
       2 ≤ ((m.map Prod.fst).filter (fun v => tier2Candidate a b v)).length →
       find_matching_version target m = .ok none)
  ∧ find_matching_version "1.20.1" [("1.20.1-pre1", "a"), ("1.20.1-pre2", "b")] = .ok none := by
  refine ⟨?_, ?_, by decide⟩
  · intro t m h
    simp only [find_matching_version]
    rw [if_pos (by omega)]
  · intro t m a b c h1 h2 h3
    simp only [find_matching_version]
    rw [h1, h2]
    simp only [List.length_nil]
    rw [if_neg (by omega), if_pos (by omega)]

theorem C2_ambiguity_fails_witness :
    find_matching_version "1.20.1" [("v1.20.1", "a"), ("x1.20.1", "b")] = .ok none :=
  C2_ambiguity_fails.1 "1.20.1" [("v1.20.1", "a"), ("x1.20.1", "b")] (by decide)

/-! ## C3: a target that does not split in three raises, it is not skipped -/

/-- C3 counterexample: target `1.20` (two dot-separated components) with a
map having no exact-tier match makes `find_matching_version` raise
`ValueError` at `a, b, c = self.version.split(".")` instead of skipping the
patch-wildcard tier and proceeding to the minor-only tier. -/
theorem C3_cex : find_matching_version "1.20" [("1.21.1", "u")] = .error .valueError := by decide

/-- C3 amended: whenever the exact tier yields no candidate and the target
does not split into exactly three dot-separated components, resolution
raises an uncaught `ValueError` (aborting the run); the minor-only tier is
never reached. -/
theorem C3_amended (target : String) (m : VMap)
    (h1 : (m.map Prod.fst).filter (fun v => tier1Candidate target v) = [])
    (h2 : (pySplitDot target.data).length ≠ 3) :
    find_matching_version target m = .error .valueError := by
  simp only [find_matching_version]
  rw [h1]
  simp only [List.length_nil]
  rw [if_neg (by omega)]
  split
  · rename_i heq
    exact absurd (by rw [heq]; rfl) h2
  · rfl

theorem C3_amended_witness :
    find_matching_version "1.20" [("1.19.1", "u")] = .error .valueError :=
  C3_amended "1.20" [("1.19.1", "u")] (by decide) (by decide)

/-! ## C4: exact presence of the target as a key -/

/-- C4 counterexample: the target `1.20.1` is itself a key of the map, yet
resolution returns `None`, because a second key (`v1.20.1`) is also an
exact-tier candidate and the ambiguity check fires. -/
theorem C4_cex :
    ("1.20.1", "a") ∈ ([("1.20.1", "a"), ("v1.20.1", "b")] : VMap) ∧
    find_matching_version "1.20.1" [("1.20.1", "a"), ("v1.20.1", "b")] = .ok none := by decide

/-- C4 amended: if the target is itself a key (keys being distinct, as in a
Python dict) and no *other* key is an exact-tier candidate, resolution
returns exactly that key, regardless of any patch-wildcard or minor-tier
candidates also present in the map. -/
theorem C4_amended (target : String) (m : VMap)
    (hnd : (m.map Prod.fst).Nodup)
    (hmem : target ∈ m.map Prod.fst)
    (honly : ∀ k ∈ m.map Prod.fst, tier1Candidate target k = true → k = target) :
    find_matching_version target m = .ok (some target) := by
  have hf : (m.map Prod.fst).filter (fun v => tier1Candidate target v) = [target] :=
    filter_eq_singleton_of_unique _ _ _ hnd hmem (tier1Candidate_self target) honly
  simp only [find_matching_version]
  rw [hf]
  rfl

theorem C4_amended_witness :
    find_matching_version "1.20.1" [("1.20.1", "u"), ("1.20.3", "v")] = .ok (some "1.20.1") :=
  C4_amended "1.20.1" [("1.20.1", "u"), ("1.20.3", "v")] (by decide) (by decide) (by decide)

/-! ## C5: what the exact tier actually matches -/

theorem matchChars_eq_some_iff (T : List Char) :
    ∀ (s rest : List Char),
      matchChars T s = some rest ↔
      ∃ mid, s = mid ++ rest ∧ mid.length = T.length ∧
        ∀ p ∈ T.zip mid, patCharMatch p.1 p.2 = true := by
  induction T with
  | nil =>
    intro s rest
    simp only [matchChars, Option.some.injEq, List.length_nil]
    constructor
    · rintro rfl
      exact ⟨[], rfl, rfl, by simp⟩
    · rintro ⟨mid, rfl, hlen, _⟩
      rw [List.length_eq_zero.mp hlen, List.nil_append]
  | cons p ps ih =>
    intro s rest
    cases s with
    | nil =>
      simp only [matchChars]
      constructor
      · intro h; cases h
      · rintro ⟨mid, hmid, hlen, _⟩
        have : mid = [] ∧ rest = [] := by
          constructor
          · cases mid with
            | nil => rfl
            | cons a t => cases hmid
          · cases mid with
            | nil => simpa using hmid.symm
            | cons a t => cases hmid
        rw [this.1] at hlen
        cases hlen
    | cons c cs =>
      by_cases hpc : patCharMatch p c = true
      · rw [show matchChars (p :: ps) (c :: cs) = matchChars ps cs by
          simp [matchChars, hpc]]
        rw [ih cs rest]
        constructor
        · rintro ⟨mid, rfl, hlen, hall⟩
          refine ⟨c :: mid, rfl, by simp [hlen], ?_⟩
          intro q hq
          rcases List.mem_cons.mp (by simpa [List.zip] using hq) with hq1 | hq2
          · subst hq1; exact hpc
          · exact hall q hq2
        · rintro ⟨mid, hmid, hlen, hall⟩
          cases mid with
          | nil => cases hlen
          | cons m0 mid' =>
            have hm0 : m0 = c := by
              have := congrArg (fun l => l.headD ' ') hmid
              simpa using this.symm
            subst hm0
            have hcs : cs = mid' ++ rest := by
              have := congrArg List.tail hmid
              simpa using this
            exact ⟨mid', hcs, by simpa using hlen,
              fun q hq => hall q (List.mem_cons_of_mem _ hq)⟩
      · rw [show matchChars (p :: ps) (c :: cs) = none by
          simp [matchChars, hpc]]
        constructor
        · intro h; cases h
        · rintro ⟨mid, hmid, hlen, hall⟩
          cases mid with
          | nil => cases hlen
          | cons m0 mid' =>
            have hm0 : m0 = c := by
              have := congrArg (fun l => l.headD ' ') hmid
              simpa using this.symm
            have hmem : (p, m0) ∈ (p :: ps).zip (m0 :: mid') := by simp [List.zip]
            have hmatch := hall (p, m0) hmem
            rw [hm0] at hmatch
            exact absurd hmatch hpc

theorem tailOk_iff (post : List Char) : tailOk post = true ↔ tier1TailSpec post := by
  unfold tier1TailSpec
  match post with
  | [] => simp [tailOk]
  | [c] => simp [tailOk]
  | [c, d] =>
    simp only [tailOk, Bool.and_eq_true, Bool.not_eq_true', decide_eq_true_eq]
    constructor
    · rintro ⟨h1, h2⟩
      subst h2
      exact Or.inr (Or.inr ⟨c, rfl, h1⟩)
    · rintro (h | ⟨c', h, _⟩ | ⟨c', h, hd⟩)
      · cases h
      · cases h
      · injection h with h1 h2
        injection h2 with h2 _
        subst h1
        subst h2
        exact ⟨hd, rfl⟩
  | a :: b :: e :: t =>
    simp [tailOk]

theorem tier1At_iff (T s : List Char) :
    tier1At T s = true ↔
    ∃ mid post, s = mid ++ post ∧ mid.length = T.length ∧
      (∀ p ∈ T.zip mid, patCharMatch p.1 p.2 = true) ∧ tier1TailSpec post := by
  unfold tier1At
  cases h : matchChars T s with
  | some rest =>
    rw [matchChars_eq_some_iff] at h
    obtain ⟨mid, rfl, hlen, hall⟩ := h
    constructor
    · intro ht
      exact ⟨mid, rest, rfl, hlen, hall, (tailOk_iff rest).mp ht⟩
    · rintro ⟨mid2, post2, heq, hlen2, _, hpost⟩
      obtain ⟨rfl, rfl⟩ := List.append_inj heq (by omega)
      exact (tailOk_iff rest).mpr hpost
  | none =>
    constructor
    · intro ht; cases ht
    · rintro ⟨mid, post, rfl, hlen, hall, _⟩
      have : matchChars T (mid ++ post) = some post :=
        (matchChars_eq_some_iff T (mid ++ post) post).mpr ⟨mid, rfl, hlen, hall⟩
      rw [this] at h
      cases h

theorem tier1PreSpec_cons (prev : Option Char) (c : Char) (pre : List Char) :
    tier1PreSpec prev (c :: pre) ↔ tier1PreSpec (some c) pre := by
  unfold tier1PreSpec
  constructor
  · rintro (⟨h, _⟩ | ⟨pre', d, heq, hd⟩)
    · cases h
    · cases pre' with
      | nil =>
        obtain ⟨rfl, rfl⟩ : d = c ∧ pre = [] := by
          have := List.cons.injEq c pre d [] ▸ heq
          exact ⟨this.1.symm, this.2⟩
        exact Or.inl ⟨rfl, by simp [boundaryOk, hd]⟩
      | cons q pre'' =>
        have h1 : c = q ∧ pre = pre'' ++ [d] := by
          have := List.cons.injEq c pre q (pre'' ++ [d]) ▸ heq
          exact this
        exact Or.inr ⟨pre'', d, h1.2, hd⟩
  · rintro (⟨rfl, hb⟩ | ⟨pre', d, rfl, hd⟩)
    · exact Or.inr ⟨[], c, rfl, by simpa [boundaryOk] using hb⟩
    · exact Or.inr ⟨c :: pre', d, rfl, hd⟩

theorem tier1SearchAux_iff (T : List Char) :
    ∀ (s : List Char) (prev : Option Char),
      tier1SearchAux T prev s = true ↔
      ∃ pre mid post, s = pre ++ mid ++ post ∧ mid.length = T.length ∧
        (∀ p ∈ T.zip mid, patCharMatch p.1 p.2 = true) ∧
        tier1PreSpec prev pre ∧ tier1TailSpec post := by
  intro s
  induction s with
  | nil =>
    intro prev
    simp only [tier1SearchAux, Bool.and_eq_true]
    constructor
    · rintro ⟨hb, ht⟩
      obtain ⟨mid, post, heq, hlen, hall, hpost⟩ := (tier1At_iff T []).mp ht
      exact ⟨[], mid, post, by simpa using heq, hlen, hall, Or.inl ⟨rfl, hb⟩, hpost⟩
    · rintro ⟨pre, mid, post, heq, hlen, hall, hpre, hpost⟩
      obtain ⟨hpm, hpost0⟩ := List.append_eq_nil.mp heq.symm
      obtain ⟨hpre0, hmid0⟩ := List.append_eq_nil.mp hpm
      subst hpre0
      refine ⟨?_, (tier1At_iff T []).mpr ⟨mid, post, by simp [hmid0, hpost0], hlen, hall, hpost⟩⟩
      rcases hpre with ⟨_, hb⟩ | ⟨pre', d, habs, _⟩
      · exact hb
      · exact absurd habs.symm (by simp)
  | cons c cs ih =>
    intro prev
    simp only [tier1SearchAux, Bool.or_eq_true, Bool.and_eq_true]
    rw [ih (some c)]
    constructor
    · rintro (⟨hb, ht⟩ | ⟨pre', mid, post, heq, hlen, hall, hpre, hpost⟩)
      · obtain ⟨mid, post, heq, hlen, hall, hpost⟩ := (tier1At_iff T (c :: cs)).mp ht
        exact ⟨[], mid, post, by simpa using heq, hlen, hall, Or.inl ⟨rfl, hb⟩, hpost⟩
      · exact ⟨c :: pre', mid, post, by simp [heq], hlen, hall,
          (tier1PreSpec_cons prev c pre').mpr hpre, hpost⟩
    · rintro ⟨pre, mid, post, heq, hlen, hall, hpre, hpost⟩
      cases pre with
      | nil =>
        left
        refine ⟨?_, (tier1At_iff T (c :: cs)).mpr ⟨mid, post, by simpa using heq, hlen, hall, hpost⟩⟩
        rcases hpre with ⟨_, hb⟩ | ⟨pre', d, habs, _⟩
        · exact hb
        · exact absurd habs.symm (by simp)
      | cons p0 pre' =>
        right
        have hp0 : p0 = c := by
          have := congrArg (fun l => l.headD ' ') heq
          simpa using this.symm
        subst hp0
        have hcs : cs = pre' ++ mid ++ post := by
          have := congrArg List.tail heq
          simpa using this
        exact ⟨pre', mid, post, hcs, hlen, hall,
          (tier1PreSpec_cons prev p0 pre').mp hpre, hpost⟩

/-- C5 counterexample: the spec's verbatim-occurrence reading and the
source regex disagree in both directions — `1.20.1-pre1` contains `1.20.1`
verbatim ending before a non-digit yet is *not* an exact-tier candidate
(the regex is end-anchored), while `1a20b1` contains no verbatim `1.20.1`
yet *is* a candidate (the raw-interpolated dots match any character). -/
theorem C5_cex :
    specExactCandidate "1.20.1" "1.20.1-pre1" = true ∧
    tier1Candidate "1.20.1" "1.20.1-pre1" = false ∧
    tier1Candidate "1.20.1" "1a20b1" = true ∧
    specExactCandidate "1.20.1" "1a20b1" = false := by decide

/-- C5 amended: a key is an exact-tier candidate iff it decomposes as
`pre ++ mid ++ post` where `mid` matches the target character-wise with the
target's dots acting as wildcards, `pre` is empty or ends in a non-digit,
and `post` is empty or a single non-digit (optionally before one final
newline) — i.e. the match must reach the end of the key, not merely stop
at a non-digit boundary.  Target `1.20.1` still makes key `1.20.1` a
candidate but not `1.20.10`. -/
theorem C5_amended (target key : String) :
    tier1Candidate target key = true ↔ tier1RegexSpec target.data key.data := by
  unfold tier1Candidate tier1RegexSpec
  rw [tier1SearchAux_iff]
  constructor
  · rintro ⟨pre, mid, post, heq, hlen, hall, hpre, hpost⟩
    refine ⟨pre, mid, post, heq, hlen, hall, ?_, hpost⟩
    rcases hpre with ⟨h0, _⟩ | h1
    · exact Or.inl h0
    · exact Or.inr h1
  · rintro ⟨pre, mid, post, heq, hlen, hall, hpre, hpost⟩
    refine ⟨pre, mid, post, heq, hlen, hall, ?_, hpost⟩
    rcases hpre with h0 | h1
    · exact Or.inl ⟨h0, rfl⟩
    · exact Or.inr h1

theorem C5_amended_witness : tier1RegexSpec "1.20.1".data "v1.20.1".data :=
  (C5_amended "1.20.1" "v1.20.1").mp (by decide)

/-! ## C10: duplicate keys in the releases listing — last asset wins -/

theorem lookupDict_append_single (m : VMap) (k v key : String)
    (hk : ∀ p ∈ m, p.1 ≠ k) :
    lookupDict (m ++ [(k, v)]) key = if key = k then some v else lookupDict m key := by
  induction m with
  | nil => simp [lookupDict]
  | cons p rest ih =>
    simp only [List.cons_append, lookupDict]
    by_cases h0 : key = p.1
    · have hne : key ≠ k := fun hc => hk p (List.mem_cons_self _ _) (h0.symm.trans hc)
      rw [if_pos h0, if_neg hne, if_pos h0]
    · rw [if_neg h0, if_neg h0]
      exact ih (fun q hq => hk q (List.mem_cons_of_mem _ hq))

theorem lookupDict_map_ne (m : VMap) (k v key : String) (hne : key ≠ k) :
    lookupDict (m.map (fun p => if p.1 = k then (k, v) else p)) key = lookupDict m key := by
  induction m with
  | nil => rfl
  | cons p rest ih =>
    simp only [List.map_cons, lookupDict]
    by_cases h0 : p.1 = k
    · rw [if_pos h0]
      rw [if_neg (show ¬(key = ((k, v) : String × String).1) from hne)]
      rw [if_neg (fun hc : key = p.1 => hne (hc.trans h0))]
      exact ih
    · rw [if_neg h0]
      by_cases hk0 : key = p.1
      · rw [if_pos hk0, if_pos hk0]
      · rw [if_neg hk0, if_neg hk0]
        exact ih

theorem lookupDict_map_eq (m : VMap) (k v : String)
    (hany : m.any (fun p => p.1 = k) = true) :
    lookupDict (m.map (fun p => if p.1 = k then (k, v) else p)) k = some v := by
  induction m with
  | nil => cases hany
  | cons p rest ih =>
    simp only [List.map_cons, lookupDict]
    by_cases h0 : p.1 = k
    · rw [if_pos h0, if_pos (show k = ((k, v) : String × String).1 from rfl)]
    · rw [if_neg h0, if_neg (fun hc : k = p.1 => h0 hc.symm)]
      apply ih
      rcases List.any_eq_true.mp hany with ⟨x, hx, hpx⟩
      rcases List.mem_cons.mp hx with h1 | h2
      · subst h1
        exact absurd (of_decide_eq_true hpx) h0
      · exact List.any_eq_true.mpr ⟨x, h2, hpx⟩

theorem lookupDict_dictInsert (m : VMap) (k v key : String) :
    lookupDict (dictInsert m k v) key = if key = k then some v else lookupDict m key := by
  unfold dictInsert
  by_cases hany : m.any (fun p => p.1 = k) = true
  · rw [if_pos hany]
    by_cases hk : key = k
    · subst hk
      rw [if_pos rfl, lookupDict_map_eq _ _ _ hany]
    · rw [if_neg hk, lookupDict_map_ne _ _ _ _ hk]
  · rw [if_neg hany]
    apply lookupDict_append_single
    intro p hp hc
    exact hany (List.any_eq_true.mpr ⟨p, hp, decide_eq_true hc⟩)

theorem buildModListAux_lastUrl (assets : List Asset) :
    ∀ acc : VMap, (∀ a ∈ assets, (versionRegexMatch a.name).isSome = true) →
      ∃ m, buildModListAux acc assets = .ok m ∧
        ∀ key, lookupDict m key =
          match lastUrl assets key with
          | some u => some u
          | none => lookupDict acc key := by
  induction assets with
  | nil =>
    intro acc _
    exact ⟨acc, rfl, fun key => by simp [lastUrl]⟩
  | cons a rest ih =>
    intro acc hall
    obtain ⟨gv, hgv⟩ := Option.isSome_iff_exists.mp (hall a (List.mem_cons_self _ _))
    obtain ⟨m, hm, hlk⟩ :=
      ih (dictInsert acc gv a.url) (fun x hx => hall x (List.mem_cons_of_mem _ hx))
    refine ⟨m, by simpa [buildModListAux, hgv] using hm, fun key => ?_⟩
    rw [hlk key]
    simp only [lastUrl, hgv]
    cases hl : lastUrl rest key with
    | some u => rfl
    | none =>
      rw [lookupDict_dictInsert]
      by_cases hk : gv = key
      · subst hk
        rw [if_pos rfl, if_pos rfl]
      · rw [if_neg hk, if_neg (fun hc => hk hc.symm)]

/-- C10: when several assets across the release listing produce the same
game-version key, extraction does not fail on the duplicate; the resulting
map sends each key to the download location of the last such asset in
listing order (later entries overwrite earlier ones). -/
theorem C10_last_asset_wins (e : Extr) (w : World) (owner repo : String)
    (hgm : githubMatch e.source = some (owner, repo))
    (hst : w.releasesStatus (releasesUrl owner repo) = 200)
    (hne : (w.releasesBody (releasesUrl owner repo)).isEmpty = false)
    (hall : ∀ a ∈ allAssets (w.releasesBody (releasesUrl owner repo)),
      (versionRegexMatch a.name).isSome = true) :
    ∃ m, extract_jars_github e w = .ok (some m) ∧
      ∀ key, lookupDict m key =
        lastUrl (allAssets (w.releasesBody (releasesUrl owner repo))) key := by
  obtain ⟨m, hm, hlk⟩ := buildModListAux_lastUrl _ [] hall
  refine ⟨m, ?_, fun key => ?_⟩
  · simp [extract_jars_github, hgm, hst, hne, hm]
  · rw [hlk key]
    cases lastUrl (allAssets (w.releasesBody (releasesUrl owner repo))) key with
    | some u => rfl
    | none => rfl

theorem C10_last_asset_wins_witness :
    ∃ m, extract_jars_github c10e c10w = .ok (some m) ∧
      ∀ key, lookupDict m key =
        lastUrl (allAssets (c10w.releasesBody (releasesUrl "o" "r"))) key :=
  C10_last_asset_wins c10e c10w "o" "r" (by decide) rfl rfl (by decide)


/-! ## File-set helper lemmas for the fetch engine -/

theorem mem_addFile_self (fs : List String) (f : String) : f ∈ addFile fs f := by
  unfold addFile
  split
  · assumption
  · simp

theorem mem_addFile_of_mem (fs : List String) (f x : String) (h : x ∈ fs) : x ∈ addFile fs f := by
  unfold addFile
  split
  · exact h
  · exact List.mem_append_left _ h

theorem mem_removeFile (fs : List String) (f x : String) :
    x ∈ removeFile fs f ↔ x ∈ fs ∧ x ≠ f := by
  unfold removeFile
  simp [List.mem_filter]

/-! ## C7: what a failed fetch leaves behind -/

theorem fetchJar_false_world (e : Extr) (url : String) (w : World) (r : FetchResult)
    (hr : fetchJar e url w = r) (hs : r.success = false) :
    r.world = w ∧ r.extr.name = e.name ∧ r.extr.source = e.source := by
  simp only [fetchJar] at hr
  split at hr
  · subst hr; exact ⟨rfl, rfl, rfl⟩
  · split at hr
    · subst hr; exact ⟨rfl, rfl, rfl⟩
    · split at hr
      · subst hr; simp at hs
      · split at hr
        · subst hr; exact ⟨rfl, rfl, rfl⟩
        · split at hr
          · split at hr
            · subst hr; simp at hs
            · subst hr; simp at hs
          · subst hr; simp at hs

/-- C7 counterexample: a transfer-request failure (HTTP 500 on the `GET`)
returns failure with the filesystem untouched, but the extractor's recorded
version has advanced from `1.20.1` to the resolved `1.20.3` and its file
reference has advanced to the never-downloaded `mymod-1.20.3-2.0.jar`, so
the mod's recorded version and file reference are *not* unchanged. -/
theorem C7_cex :
    download_jar c7e c7w = .ok ⟨false, c7e2, c7w, 1⟩ ∧
    c7e2.version ≠ c7e.version ∧ c7e2.file ≠ c7e.file := by
  refine ⟨by rfl, by decide, by decide⟩

/-- C7 amended: if fetch fails at the metadata request, at filename
extraction, or at the transfer request (any failing `download_jar` run),
the filesystem — and the whole world — is untouched relative to its
pre-call state, the mod's name and source are unchanged, and the manifest
entry written for it carries no version and no file (so the on-disk
manifest is never advanced for a failed mod); however the extractor's
in-memory version and file reference may already have advanced. -/
theorem C7_amended (e : Extr) (w : World) (r : FetchResult)
    (h : download_jar e w = .ok r) (hs : r.success = false) :
    r.world = w ∧ r.extr.name = e.name ∧ r.extr.source = e.source ∧
      entryOf r.extr r.success = ⟨e.name, e.source, none, none⟩ := by
  have key : r.world = w ∧ r.extr.name = e.name ∧ r.extr.source = e.source := by
    simp only [download_jar] at h
    split at h
    · cases h
    · obtain rfl : (⟨false, e, w, 0⟩ : FetchResult) = r := by simpa using h
      exact ⟨rfl, rfl, rfl⟩
    · split at h
      · obtain rfl : (⟨false, e, w, 0⟩ : FetchResult) = r := by simpa using h
        exact ⟨rfl, rfl, rfl⟩
      · split at h
        · cases h
        · obtain rfl : (⟨false, e, w, 0⟩ : FetchResult) = r := by simpa using h
          exact ⟨rfl, rfl, rfl⟩
        · rename_i v hv
          split at h
          · cases h
          · rename_i jar_url hurl
            have hfr : fetchJar { e with version := v } jar_url w = r := by
              simpa using h
            exact fetchJar_false_world { e with version := v } jar_url w r hfr hs
  refine ⟨key.1, key.2.1, key.2.2, ?_⟩
  rw [entryOf, hs]
  simp [key.2.1, key.2.2]

theorem C7_amended_witness :
    (⟨false, c7e2, c7w, 1⟩ : FetchResult).world = c7w ∧
    (⟨false, c7e2, c7w, 1⟩ : FetchResult).extr.name = c7e.name ∧
    (⟨false, c7e2, c7w, 1⟩ : FetchResult).extr.source = c7e.source ∧
    entryOf (⟨false, c7e2, c7w, 1⟩ : FetchResult).extr
      (⟨false, c7e2, c7w, 1⟩ : FetchResult).success = ⟨c7e.name, c7e.source, none, none⟩ :=
  C7_amended c7e c7w ⟨false, c7e2, c7w, 1⟩ (by rfl) rfl

/-! ## C8: replace semantics — at most one resident file -/

/-- C8: after a successful fetch where the previous file `p` is set
(non-empty, by Python truthiness), differs from the newly resolved filename
`f`, and exists on disk (while `f` does not yet), the new file exists and
the previous file no longer does. -/
theorem C8_replace (e : Extr) (url : String) (w : World) (r : FetchResult) (p f : String)
    (hr : fetchJar e url w = r) (hs : r.success = true)
    (hp : e.file = some p) (hf : r.extr.file = some f)
    (hne : p ≠ f) (hpe : p ≠ "") (hpin : p ∈ w.files) (hfout : f ∉ w.files) :
    f ∈ r.world.files ∧ p ∉ r.world.files := by
  simp only [fetchJar, hp] at hr
  split at hr
  · subst hr; simp at hs
  · split at hr
    · subst hr; simp at hs
    · split at hr
      · rename_i hmem
        subst hr
        simp only at hf
        obtain rfl : _ = f := Option.some.inj hf
        exact absurd hmem hfout
      · split at hr
        · subst hr; simp at hs
        · split at hr
          · rename_i hcond
            subst hr
            simp only at hf
            obtain rfl : _ = f := Option.some.inj hf
            constructor
            · exact (mem_removeFile _ _ _).mpr ⟨mem_addFile_self _ _, fun hc => hne hc.symm⟩
            · intro hc
              exact absurd ((mem_removeFile _ _ _).mp hc).2 (by simp)
          · rename_i hcond
            subst hr
            simp only at hf
            obtain rfl : _ = f := Option.some.inj hf
            exact absurd ⟨hpe, hne, mem_addFile_of_mem _ _ _ hpin⟩ hcond

theorem C8_replace_witness :
    "mod-1.1.jar" ∈ (fetchJar c8e "u" c8w).world.files ∧
    "mod-1.0.jar" ∉ (fetchJar c8e "u" c8w).world.files :=
  C8_replace c8e "u" c8w (fetchJar c8e "u" c8w) "mod-1.0.jar" "mod-1.1.jar"
    rfl (by rfl) (by rfl) (by rfl) (by decide) (by decide) (by decide) (by decide)

/-! ## C9: fetch twice in succession is idempotent -/

/-- C9: with no prior file and the resolved artifact's true filename `f` not
yet on disk, a successful fetch performs exactly one body transfer, records
`f`, and creates it; running the fetch again from the resulting state
reports success with no body transfer (it stops after the metadata-only
request) and changes nothing. -/
theorem C9_fetch_idempotent (e : Extr) (url : String) (w : World) (r : FetchResult) (f : String)
    (h0 : e.file = none)
    (h2 : w.headStatus url = 200)
    (h3 : hasFilenameEq ((w.headDisposition url).getD "").data = true)
    (h4 : dispositionFilename ((w.headDisposition url).getD "") = f)
    (h5 : f ∉ w.files)
    (h6 : w.getStatus url = 200)
    (hr : fetchJar e url w = r) :
    r.success = true ∧ r.gets = 1 ∧ r.extr.file = some f ∧ f ∈ r.world.files ∧
      fetchJar r.extr url r.world = ⟨true, r.extr, r.world, 0⟩ := by
  simp only [fetchJar, h0, h2, h3, h4] at hr
  rw [if_neg (by simp)] at hr
  rw [if_neg (by simp)] at hr
  rw [if_neg h5] at hr
  rw [if_neg (by simp [h6])] at hr
  subst hr
  refine ⟨rfl, rfl, rfl, mem_addFile_self _ _, ?_⟩
  simp only [fetchJar]
  rw [if_neg (by simpa using (by simp [h2] : ¬ w.headStatus url ≠ 200))]
  rw [if_neg (by simp [h3])]
  rw [if_pos (by exact h4 ▸ mem_addFile_self w.files f)]
  rw [h4]

theorem C9_fetch_idempotent_witness :
    (fetchJar c9e "u" c9w).success = true ∧ (fetchJar c9e "u" c9w).gets = 1 ∧
    (fetchJar c9e "u" c9w).extr.file = some "mod-1.1.jar" ∧
    "mod-1.1.jar" ∈ (fetchJar c9e "u" c9w).world.files ∧
    fetchJar (fetchJar c9e "u" c9w).extr "u" (fetchJar c9e "u" c9w).world =
      ⟨true, (fetchJar c9e "u" c9w).extr, (fetchJar c9e "u" c9w).world, 0⟩ :=
  C9_fetch_idempotent c9e "u" c9w (fetchJar c9e "u" c9w) "mod-1.1.jar"
    rfl rfl (by rfl) (by rfl) (by decide) rfl rfl

/-! ## C6: which failures are recovered at the single-mod boundary -/

/-- C6 counterexample: a source URI that does not parse (`not-a-github-url`)
raises an uncaught `AttributeError` inside `extract_jars`, aborting the
whole per-mod loop: the second, well-formed mod is never processed and no
manifest is produced — whereas processing the well-formed mod alone
succeeds in recovering its own (HTTP 404) failure. -/
theorem C6_cex :
    processLoop [c6bad, c6good] c6w = .error .attributeError ∧
    processLoop [c6good] c6w = .ok ([entryOf c6good false], c6w) :=
  ⟨rfl, rfl⟩

/-- C6 amended: a mod whose `download_jar` returns normally — in particular
any non-success HTTP response at the releases listing, which the code turns
into a recovered `False` — never aborts processing of the other mods: the
loop continues with the remaining mods on the updated world.  (Unparsable
source URIs, asset filenames that miss the release pattern, and targets
that do not split in three instead raise uncaught exceptions that abort the
whole run, as the counterexample shows.) -/
theorem C6_amended :
    (∀ (e : Extr) (rest : List Extr) (w : World) (r : FetchResult),
       download_jar e w = .ok r →
       processLoop (e :: rest) w =
         match processLoop rest r.world with
         | .error err => .error err
         | .ok (entries, w2) => .ok (entryOf r.extr r.success :: entries, w2))
  ∧ (∀ (e : Extr) (w : World) (owner repo : String),
       githubMatch e.source = some (owner, repo) →
       w.releasesStatus (releasesUrl owner repo) ≠ 200 →
       download_jar e w = .ok ⟨false, e, w, 0⟩) := by
  constructor
  · intro e rest w r h
    simp only [processLoop, h]
  · intro e w owner repo hg hs
    simp only [download_jar, extract_jars_github, hg]
    rw [if_pos hs]

theorem C6_amended_witness :
    processLoop [c6good, c6good2] c6w =
      .ok ([entryOf c6good false, entryOf c6good2 false], c6w) ∧
    download_jar c6good c6w = .ok ⟨false, c6good, c6w, 0⟩ := by
  have h2 := C6_amended.2 c6good c6w "o" "r" (by decide) (by decide)
  have h1 := C6_amended.1 c6good [c6good2] c6w ⟨false, c6good, c6w, 0⟩ h2
  exact ⟨by rw [h1]; rfl, h2⟩
